import Mathlib

/-
Verification of the geometric proximity core of PyPlume
(src/parcels_analysis.py): line-segment geometry, nearest-waypoint
lookup, point-to-segment projection, and threshold counting.

Modelling conventions:
  * Python floats are modelled as exact rationals; a coordinate that may
    be NaN is an `Option ℚ` with `none` standing for NaN.  Arithmetic on
    such values propagates `none`, and every comparison involving `none`
    is false, matching IEEE NaN comparison semantics.  Infinite
    coordinate values are outside the modelled domain (the claims only
    involve finite and NaN coordinates); `+inf` occurs only as the
    initial accumulator of `get_closest_dist` and is represented by the
    dedicated constructor `RF.inf`.
  * `utils.haversine` lives in a module that is not part of the given
    sources, so distance computations are parameterised by an abstract
    function `Hav`; properties the spec ascribes to it (finite output on
    finite input) appear as hypotheses where needed.
  * `scipy.spatial.KDTree` is external library code.  Its query is
    modelled per the spec and scipy's documented contract: the index of
    the waypoint closest in planar Euclidean distance, deterministic
    first-index tie-breaking, and the documented missing-neighbor
    convention (distance `inf`, index `n`) when no point is accepted,
    which is what happens when the query contains NaN.  Construction
    accepts any point set, including the empty one.
  * Raised Python exceptions are modelled by `Except`/`Option` results.
-/

namespace PyPlume

/-- A float-like scalar as used by the distance accumulator: NaN,
positive infinity, or a finite value. -/
inductive RF where
  | nan : RF
  | inf : RF
  | fin : ℚ → RF
deriving DecidableEq, Repr

/-- Addition on possibly-NaN values (`none` = NaN). -/
def oadd : Option ℚ → Option ℚ → Option ℚ
  | some a, some b => some (a + b)
  | _, _ => none

/-- Subtraction on possibly-NaN values. -/
def osub : Option ℚ → Option ℚ → Option ℚ
  | some a, some b => some (a - b)
  | _, _ => none

/-- Multiplication on possibly-NaN values. -/
def omul : Option ℚ → Option ℚ → Option ℚ
  | some a, some b => some (a * b)
  | _, _ => none

/-- Negation on possibly-NaN values. -/
def oneg : Option ℚ → Option ℚ
  | some a => some (-a)
  | none => none

/-- Division on possibly-NaN values; division by zero is never reached
on the executed paths (the divisor is proved nonzero there). -/
def odiv : Option ℚ → Option ℚ → Option ℚ
  | some a, some b => if b = 0 then none else some (a / b)
  | _, _ => none

/-- `<=` on possibly-NaN values: any comparison with NaN is false. -/
def ole (a b : Option ℚ) : Bool :=
  match a, b with
  | some a, some b => decide (a ≤ b)
  | _, _ => false

/-- Inject a possibly-NaN value into `RF`. -/
def RF.ofO : Option ℚ → RF
  | some q => RF.fin q
  | none => RF.nan

/-- Strict `<` on `RF`, with IEEE behaviour: NaN compares false, and
nothing is below a finite value except a smaller finite value. -/
def RF.lt : RF → RF → Bool
  | RF.nan, _ => false
  | _, RF.nan => false
  | RF.inf, _ => false
  | RF.fin _, RF.inf => true
  | RF.fin a, RF.fin b => decide (a < b)

/-- A line segment as built by `line_seg` in `parcels_analysis.py`:
endpoints, x-interval `dom`, y-interval `rng`, and slope where `none`
is the NaN sentinel marking a vertical segment. -/
structure Seg where
  x1 : ℚ
  y1 : ℚ
  x2 : ℚ
  y2 : ℚ
  dom : ℚ × ℚ
  rng : ℚ × ℚ
  slope : Option ℚ
deriving DecidableEq, Repr

/-- `line_seg(x1, y1, x2, y2)` from `parcels_analysis.py`. -/
def line_seg (x1 y1 x2 y2 : ℚ) : Seg :=
  { x1 := x1
    y1 := y1
    x2 := x2
    y2 := y2
    dom := if x1 ≤ x2 then (x1, x2) else (x2, x1)
    rng := if y1 ≤ y2 then (y1, y2) else (y2, y1)
    slope := if x1 - x2 ≠ 0 then some ((y1 - y2) / (x1 - x2)) else none }

/-- `valid_point(x, y, line)`: the bounding-box test
`dom[0] <= x <= dom[1] and rng[0] <= y <= rng[1]`. -/
def valid_point (x y : Option ℚ) (line : Seg) : Bool :=
  (ole (some line.dom.1) x && ole x (some line.dom.2)) &&
    (ole (some line.rng.1) y && ole y (some line.rng.2))

/-- `intersection_info(x, y, line)`: perpendicular projection of the
point onto the infinite line through the segment, with the vertical and
horizontal special cases, exactly as in `parcels_analysis.py`. -/
def intersection_info (x y : Option ℚ) (line : Seg) : Option ℚ × Option ℚ :=
  match line.slope with
  | none => (some line.x1, y)
  | some m =>
    if m = 0 then (x, some line.y1)
    else
      let norm_slope : ℚ := -1 / m
      let slope_d : ℚ := norm_slope - m
      let int_d : Option ℚ :=
        osub (some (m * (-line.x1) + line.y1)) (oadd (omul (some norm_slope) (oneg x)) y)
      let x_int : Option ℚ := odiv int_d (some slope_d)
      let y_int : Option ℚ := oadd (omul (some norm_slope) (osub x_int x)) y
      (x_int, y_int)

/-- Reference definition following the spec wording for `makeSegment`:
domain and range via `min`/`max`, slope `(y1-y2)/(x1-x2)` unless the
segment is vertical. -/
def makeSegment_spec (x1 y1 x2 y2 : ℚ) : Seg :=
  { x1 := x1
    y1 := y1
    x2 := x2
    y2 := y2
    dom := (min x1 x2, max x1 x2)
    rng := (min y1 y2, max y1 y2)
    slope := if x1 ≠ x2 then some ((y1 - y2) / (x1 - x2)) else none }

/-- Reference definition following the spec wording for `projectPoint`
on finite inputs: the vertical and horizontal cases, and otherwise the
stated two-line-intersection formula. -/
def projectPoint_spec (x y : ℚ) (line : Seg) : ℚ × ℚ :=
  match line.slope with
  | none => (line.x1, y)
  | some m =>
    if m = 0 then (x, line.y1)
    else
      let mperp : ℚ := -1 / m
      let dm : ℚ := mperp - m
      let dint : ℚ := (m * (-line.x1) + line.y1) - (mperp * (-x) + y)
      let xi : ℚ := dint / dm
      let yi : ℚ := mperp * (xi - x) + y
      (xi, yi)

/-- The slope difference `-1/m - m` used as the divisor in
`intersection_info` is nonzero whenever `m ≠ 0`. -/
lemma slope_d_ne_zero (m : ℚ) (hm : m ≠ 0) : -1 / m - m ≠ 0 := by
  intro h
  have h2 : -1 / m = m := by linarith
  have h3 : (-1 : ℚ) = m * m := by
    field_simp at h2
    linarith
  nlinarith [mul_self_nonneg m]

/-- The abstract geodesic distance function standing for
`utils.haversine(lat1, lat2, lon1, lon2)`.
Modelled from the spec: `utils.haversine` is imported from a module that
is not among the given sources; the spec describes it as the haversine
great-circle distance on a fixed-radius sphere, finite and non-negative
on finite inputs and NaN-propagating on non-finite ones.  Theorems take
the properties they need as explicit hypotheses. -/
def Hav : Type := Option ℚ → Option ℚ → Option ℚ → Option ℚ → Option ℚ

/-- The track object built by `ParticlePlotFeature.__init__`. -/
structure ParticlePlotFeature where
  lats : List ℚ
  lons : List ℚ
  points : List (ℚ × ℚ)
  labels : Option (List String)
  segments : Option (List Seg)
  track_dist : ℚ
deriving DecidableEq, Repr

/-- numpy's error when `np.array([lats, lons])` gets ragged input. -/
def raggedMsg : String := "inhomogeneous shape"

/-- The `ValueError` message raised by `__init__` on a label mismatch. -/
def labelErrMsg : String := "Labels must be the same length as lats/lons"

/-- numpy's error when `np.empty(len(lats) - 1)` gets a negative size. -/
def negDimMsg : String := "negative dimensions are not allowed"

/-- The label-length guard of `__init__`. -/
def labelsMismatch (labels : Option (List String)) (n : ℕ) : Bool :=
  match labels with
  | some l => l.length != n
  | none => false

/-- The segment-building loop of `__init__`: segment `i` is
`line_seg(lons[i], lats[i], lons[i+1], lats[i+1])`. -/
def buildSegs : List ℚ → List ℚ → List Seg
  | la1 :: la2 :: lats, lo1 :: lo2 :: lons =>
    line_seg lo1 la1 lo2 la2 :: buildSegs (la2 :: lats) (lo2 :: lons)
  | _, _ => []

/-- `ParticlePlotFeature.__init__(lats, lons, labels, segments,
track_dist)`.  Raised exceptions are `Except.error` values: numpy
rejects ragged `lats`/`lons` when building the point array, the label
length check raises `ValueError`, and `np.empty(len(lats) - 1)` raises
on an empty waypoint list when segments are requested.  The scipy
KD-tree construction accepts any point set (including the empty one)
and is represented by the stored `points` list itself. -/
def init (lats lons : List ℚ) (labels : Option (List String)) (segments : Bool)
    (track_dist : ℚ) : Except String ParticlePlotFeature :=
  if lats.length ≠ lons.length then Except.error raggedMsg
  else if labelsMismatch labels lats.length then Except.error labelErrMsg
  else if segments then
    if lats.length = 0 then Except.error negDimMsg
    else Except.ok
      { lats := lats, lons := lons, points := lats.zip lons, labels := labels
        segments := some (buildSegs lats lons), track_dist := track_dist }
  else Except.ok
    { lats := lats, lons := lons, points := lats.zip lons, labels := labels
      segments := none, track_dist := track_dist }

/-- Squared planar distance from the query `(lat, lon)` to a stored
point; NaN coordinates propagate.  The KD-tree minimises the Euclidean
distance, whose argmin coincides with that of its square. -/
def sqd (lat lon : Option ℚ) (p : ℚ × ℚ) : Option ℚ :=
  oadd (omul (osub lat (some p.1)) (osub lat (some p.1)))
    (omul (osub lon (some p.2)) (osub lon (some p.2)))

/-- Traversal core of the KD-tree query: scan the points in order,
keeping the first index attaining the least distance; a candidate is
accepted only when its distance compares strictly below the best so
far, so NaN distances are never accepted. -/
def kq_aux (lat lon : Option ℚ) : List (ℚ × ℚ) → ℕ → RF → ℕ → ℕ
  | [], _, _, bestIdx => bestIdx
  | p :: ps, i, bestD, bestIdx =>
    let d := RF.ofO (sqd lat lon p)
    if RF.lt d bestD then kq_aux lat lon ps (i + 1) d i
    else kq_aux lat lon ps (i + 1) bestD bestIdx

/-- `scipy.spatial.KDTree.query([lat, lon])[1]`: index of the nearest
point in planar Euclidean distance, deterministic first-index
tie-breaking; when no point is accepted (NaN query, or empty tree) the
documented missing-neighbor index `n = len(points)` is returned. -/
def kdtree_query (pts : List (ℚ × ℚ)) (lat lon : Option ℚ) : ℕ :=
  kq_aux lat lon pts 0 RF.inf pts.length

/-- The per-position inner loop of `count_near`: bump the counter of
every waypoint within `track_dist` of the position `p`.  A NaN distance
fails the `<=` test and leaves the counter unchanged. -/
def near_bump (hav : Hav) (td : ℚ) (p : Option ℚ × Option ℚ) :
    List ℕ → List (ℚ × ℚ) → List ℕ
  | counts, [] => counts
  | [], _ => []
  | c :: cs, pt :: pts =>
    (if ole (hav p.1 (some pt.1) p.2 (some pt.2)) (some td) then c + 1 else c) ::
      near_bump hav td p cs pts

/-- `ParticlePlotFeature.count_near(p_lats, p_lons)`: counters start at
zero for each of the `len(lats)` waypoints and every position bumps the
counters of the waypoints it is within `track_dist` of. -/
def count_near (f : ParticlePlotFeature) (hav : Hav)
    (p_lats p_lons : List (Option ℚ)) : List ℕ :=
  (p_lats.zip p_lons).foldl
    (fun counts p => near_bump hav f.track_dist p counts f.points)
    (List.replicate f.lats.length 0)

/-- The candidate-segment loop of `get_closest_dist`: for each segment,
project, test the bounding box, and keep the least geodesic distance
seen so far. -/
def segFold (hav : Hav) (lat lon : Option ℚ) : RF → List Seg → RF
  | least, [] => least
  | least, seg :: rest =>
    let xy := intersection_info lon lat seg
    let least1 :=
      if valid_point xy.1 xy.2 seg then
        let dist := RF.ofO (hav lat xy.2 lon xy.1)
        if RF.lt dist least then dist else least
      else least
    segFold hav lat lon least1 rest

/-- The `seg_check` list built by `get_closest_dist`:
`segments[closest_idx]` when `closest_idx < len(points) - 1`, then
`segments[closest_idx - 1]` when `closest_idx > 0`; `none` models the
`IndexError` raised when an access is out of range. -/
def seg_check (segs : List Seg) (nPts idx : ℕ) : Option (List Seg) :=
  let c1 : Option (List Seg) :=
    if idx < nPts - 1 then
      match segs.get? idx with
      | none => none
      | some s => some [s]
    else some []
  let c2 : Option (List Seg) :=
    if idx > 0 then
      match segs.get? (idx - 1) with
      | none => none
      | some s => some [s]
    else some []
  match c1, c2 with
  | some l1, some l2 => some (l1 ++ l2)
  | _, _ => none

/-- `ParticlePlotFeature.get_closest_dist(lat, lon)`.  The result is
`none` when the Python code would raise an `IndexError` (an index `≥`
the length of `points` or `segments`, as produced by a missing-neighbor
KD-tree result), and `some` of the computed least distance otherwise. -/
def get_closest_dist (f : ParticlePlotFeature) (hav : Hav)
    (lat lon : Option ℚ) : Option RF :=
  let closest_idx := kdtree_query f.points lat lon
  let seg_step : Option RF :=
    match f.segments with
    | none => some RF.inf
    | some segs =>
      match seg_check segs f.points.length closest_idx with
      | none => none
      | some l => some (segFold hav lat lon RF.inf l)
  match seg_step with
  | none => none
  | some least =>
    match f.points.get? closest_idx with
    | none => none
    | some pnt =>
      let dist := RF.ofO (hav lat (some pnt.1) lon (some pnt.2))
      some (if RF.lt dist least then dist else least)

/-- The candidate segments adjacent to waypoint `idx`, in the order the
code collects them: `segments[idx]` when `idx < N - 1`, then
`segments[idx - 1]` when `idx > 0`. -/
def candSegs (f : ParticlePlotFeature) (idx : ℕ) : List Seg :=
  match f.segments with
  | none => []
  | some segs =>
    (if idx < f.points.length - 1 then (segs.get? idx).toList else []) ++
      (if idx > 0 then (segs.get? (idx - 1)).toList else [])

/-- For each segment of a list whose projection of the query passes the
bounding-box test, the geodesic distance from the query to the
projected point (a NaN distance contributes nothing). -/
def segDs (hav : Hav) (lat lon : Option ℚ) (l : List Seg) : List ℚ :=
  l.filterMap (fun seg =>
    let xy := intersection_info lon lat seg
    if valid_point xy.1 xy.2 seg then hav lat xy.2 lon xy.1 else none)

/-- The geodesic distances of the valid segment projections for a
finite query: for each candidate segment adjacent to the nearest
waypoint whose projection passes the bounding-box test, the distance
from the query to the projected point. -/
def validSegDists (f : ParticlePlotFeature) (hav : Hav) (lat lon : ℚ) : List ℚ :=
  segDs hav (some lat) (some lon)
    (candSegs f (kdtree_query f.points (some lat) (some lon)))

/-- `count_near` as a state-passing call: the Python method body reads
`self` but never assigns to it, so the post-state is the receiver. -/
def count_near_call (f : ParticlePlotFeature) (hav : Hav)
    (p_lats p_lons : List (Option ℚ)) : List ℕ × ParticlePlotFeature :=
  (count_near f hav p_lats p_lons, f)

/-- `get_closest_dist` as a state-passing call: the Python method body
reads `self` but never assigns to it, so the post-state is the
receiver. -/
def get_closest_dist_call (f : ParticlePlotFeature) (hav : Hav)
    (lat lon : Option ℚ) : Option RF × ParticlePlotFeature :=
  (get_closest_dist f hav lat lon, f)

/-- A simple concrete NaN-propagating distance (taxicab) used only to
instantiate theorems at concrete inputs. -/
def havExample : Hav := fun a b c d =>
  match a, b, c, d with
  | some a, some b, some c, some d => some ((a - b) * (a - b) + (c - d) * (c - d))
  | _, _, _, _ => none

@[simp] lemma RF_lt_nan_left (x : RF) : RF.lt RF.nan x = false := by
  cases x <;> rfl

@[simp] lemma RF_lt_nan_right (x : RF) : RF.lt x RF.nan = false := by
  cases x <;> rfl

@[simp] lemma RF_lt_inf_left (x : RF) : RF.lt RF.inf x = false := by
  cases x <;> rfl

@[simp] lemma RF_lt_fin_inf (q : ℚ) : RF.lt (RF.fin q) RF.inf = true := rfl

@[simp] lemma RF_lt_fin_fin (a b : ℚ) :
    RF.lt (RF.fin a) (RF.fin b) = decide (a < b) := rfl

@[simp] lemma ole_none_left (b : Option ℚ) : ole none b = false := by
  cases b <;> rfl

@[simp] lemma ole_none_right (a : Option ℚ) : ole a none = false := by
  cases a <;> rfl

@[simp] lemma ole_some_some (a b : ℚ) : ole (some a) (some b) = decide (a ≤ b) := rfl

/-- Fields of a successfully constructed track, read off `__init__`. -/
lemma init_ok {lats lons : List ℚ} {labels : Option (List String)}
    {segments : Bool} {td : ℚ} {f : ParticlePlotFeature}
    (h : init lats lons labels segments td = Except.ok f) :
    f.lats = lats ∧ f.lons = lons ∧ f.points = lats.zip lons ∧
      f.labels = labels ∧ f.track_dist = td ∧
      f.segments = (if segments then some (buildSegs lats lons) else none) := by
  unfold init at h
  split at h
  · simp at h
  · split at h
    · simp at h
    · split at h
      · split at h
        · simp at h
        · injection h with h
          subst h
          simp_all
      · injection h with h
        subst h
        simp_all

/-- With equally long coordinate lists over `N` waypoints, the segment
loop builds `N - 1` segments. -/
theorem buildSegs_length : ∀ (lats lons : List ℚ),
    lats.length = lons.length →
    (buildSegs lats lons).length = lats.length - 1
  | [], _, _ => rfl
  | [_], _, _ => rfl
  | _ :: _ :: _, [], h => by simp at h
  | _ :: _ :: _, [_], h => by simp at h
  | a1 :: a2 :: as, b1 :: b2 :: bs, h => by
    have ih := buildSegs_length (a2 :: as) (b2 :: bs) (by simpa using h)
    simp only [buildSegs, List.length_cons] at ih ⊢
    omega

/-- Segment `i` of the segment loop is the segment built from the
consecutive waypoints `i` and `i + 1`. -/
theorem buildSegs_get (lats lons : List ℚ) (i : ℕ) (la1 la2 lo1 lo2 : ℚ)
    (h1 : lats.get? i = some la1) (h2 : lats.get? (i + 1) = some la2)
    (h3 : lons.get? i = some lo1) (h4 : lons.get? (i + 1) = some lo2) :
    (buildSegs lats lons).get? i = some (line_seg lo1 la1 lo2 la2) := by
  induction lats generalizing lons i with
  | nil => simp at h1
  | cons a1 tl1 ih =>
    cases tl1 with
    | nil =>
      cases i with
      | zero => simp at h2
      | succ j => simp at h1
    | cons a2 as =>
      cases lons with
      | nil => simp at h3
      | cons b1 tl2 =>
        cases tl2 with
        | nil =>
          cases i with
          | zero => simp at h4
          | succ j => simp at h3
        | cons b2 bs =>
          cases i with
          | zero =>
            simp only [List.get?] at h1 h2 h3 h4
            injection h1 with h1
            injection h2 with h2
            injection h3 with h3
            injection h4 with h4
            subst h1; subst h2; subst h3; subst h4
            rfl
          | succ j =>
            show (line_seg b1 a1 b2 a2 :: buildSegs (a2 :: as) (b2 :: bs)).get? (j + 1) =
              some (line_seg lo1 la1 lo2 la2)
            simp only [List.get?]
            exact ih (b2 :: bs) j (by simpa using h1) (by simpa using h2)
              (by simpa using h3) (by simpa using h4)

/-- A concrete two-waypoint track built with `segments=False`, used as
the failing input for the NaN-query behaviour. -/
def fNan : ParticlePlotFeature :=
  { lats := [32, 33]
    lons := [-117, -118]
    points := [(32, -117), (33, -118)]
    labels := none
    segments := none
    track_dist := 0 }

/-- The same two waypoints with `segments=True`. -/
def fNanSeg : ParticlePlotFeature :=
  { lats := [32, 33]
    lons := [-117, -118]
    points := [(32, -117), (33, -118)]
    labels := none
    segments := some (buildSegs [32, 33] [-117, -118])
    track_dist := 0 }

/-- The track produced by constructing from zero waypoints with
segments disabled and no labels. -/
def fEmpty : ParticlePlotFeature :=
  { lats := []
    lons := []
    points := []
    labels := none
    segments := none
    track_dist := 0 }

/-- C5: for every segment built by `line_seg` from finite endpoints and
every finite query point `(x, y)`, `intersection_info` returns exactly
what the spec's `projectPoint` formulas prescribe: `(x1, y)` for a
vertical segment, `(x, y1)` for a zero-slope segment, and otherwise the
stated two-line-intersection formula. -/
theorem intersection_info_matches_spec (x1 y1 x2 y2 x y : ℚ) :
    intersection_info (some x) (some y) (line_seg x1 y1 x2 y2) =
      (some (projectPoint_spec x y (line_seg x1 y1 x2 y2)).1,
        some (projectPoint_spec x y (line_seg x1 y1 x2 y2)).2) := by
  have hslope : (line_seg x1 y1 x2 y2).slope =
      if x1 - x2 ≠ 0 then some ((y1 - y2) / (x1 - x2)) else none := rfl
  by_cases hv : x1 - x2 = 0
  · simp [intersection_info, projectPoint_spec, hslope, hv]
  · by_cases hm0 : (y1 - y2) / (x1 - x2) = 0
    · simp [intersection_info, projectPoint_spec, hslope, hv, hm0]
    · have hd := slope_d_ne_zero ((y1 - y2) / (x1 - x2)) hm0
      simp [intersection_info, projectPoint_spec, hslope, hv, hm0, odiv,
        osub, oadd, omul, oneg, hd]

/-- C8: the query operations are pure: as state-passing calls they
return the receiving track unchanged, every component included. -/
theorem queries_leave_track_unchanged (f : ParticlePlotFeature) (hav : Hav)
    (p_lats p_lons : List (Option ℚ)) (lat lon : Option ℚ) :
    (count_near_call f hav p_lats p_lons).2 = f ∧
      (get_closest_dist_call f hav lat lon).2 = f :=
  ⟨rfl, rfl⟩

/-- C7: with well-formed coordinate lists, construction fails with the
label `ValueError` exactly when a label sequence of the wrong length is
supplied; with matching labels or none, that error is never raised. -/
theorem init_label_length_check (lats lons : List ℚ)
    (labels : Option (List String)) (segments : Bool) (td : ℚ)
    (hlen : lats.length = lons.length) :
    (∀ l, labels = some l → l.length ≠ lats.length →
        init lats lons labels segments td = Except.error labelErrMsg) ∧
      ((∀ l, labels = some l → l.length = lats.length) →
        init lats lons labels segments td ≠ Except.error labelErrMsg) := by
  constructor
  · intro l hl hne
    subst hl
    unfold init
    rw [if_neg (by simp [hlen])]
    rw [if_pos (by simp [labelsMismatch, hne])]
  · intro hmatch
    unfold init
    rw [if_neg (by simp [hlen])]
    have hmm : labelsMismatch labels lats.length = false := by
      cases labels with
      | none => rfl
      | some l => simp [labelsMismatch, hmatch l rfl]
    rw [hmm]
    simp only [Bool.false_eq_true, if_false]
    split
    · split
      · simp [labelErrMsg, negDimMsg]
      · simp
    · simp

/-- C7 witness: a track with three waypoints and two labels is rejected
with the label `ValueError`. -/
theorem init_label_length_check_witness :
    init [1, 2, 3] [4, 5, 6] (some ["a", "b"]) true 0 =
      Except.error labelErrMsg :=
  (init_label_length_check [1, 2, 3] [4, 5, 6] (some ["a", "b"]) true 0
    (by decide)).1 ["a", "b"] rfl (by decide)

/-- C4 counterexample: with segments disabled and no labels, a track
over zero waypoints is accepted, not rejected. -/
theorem empty_track_accepted :
    init ([] : List ℚ) ([] : List ℚ) none false 0 = Except.ok fEmpty := rfl

/-- C4 amended: construction from zero waypoints fails exactly when
segment generation is enabled (numpy rejects the negative-size segment
array) or a nonempty label sequence is supplied (length mismatch); with
segments disabled and labels absent or empty it succeeds. -/
theorem empty_track_characterization (labels : Option (List String))
    (segments : Bool) (td : ℚ) :
    (∃ f, init ([] : List ℚ) ([] : List ℚ) labels segments td = Except.ok f) ↔
      (segments = false ∧ (labels = none ∨ labels = some ([] : List String))) := by
  cases labels with
  | none => cases segments <;> simp [init, labelsMismatch]
  | some l =>
    cases l with
    | nil => cases segments <;> simp [init, labelsMismatch]
    | cons a tl => cases segments <;> simp [init, labelsMismatch]

/-- C3: evaluating `get_closest_dist` at a NaN latitude raises an
`IndexError` (result `none`) instead of returning NaN: the KD-tree
query reports the missing-neighbor index `N`, which is then used to
index `points` (and, with segments enabled, `segments`), out of
bounds either way. -/
theorem nan_query_raises (hav : Hav) (lon : Option ℚ) :
    init [32, 33] [-117, -118] none false 0 = Except.ok fNan ∧
      get_closest_dist fNan hav none lon = none ∧
      init [32, 33] [-117, -118] none true 0 = Except.ok fNanSeg ∧
      get_closest_dist fNanSeg hav none lon = none :=
  ⟨rfl, rfl, rfl, rfl⟩

/-- C6: `line_seg` agrees with the spec's `makeSegment` (min/max
domain and range, slope with vertical sentinel), and a track built with
segments enabled over `N` waypoints carries exactly `N - 1` segments
between consecutive waypoints in order, while one built with segments
disabled carries none. -/
theorem segment_construction_spec :
    (∀ x1 y1 x2 y2 : ℚ, line_seg x1 y1 x2 y2 = makeSegment_spec x1 y1 x2 y2) ∧
      (∀ (lats lons : List ℚ) (labels : Option (List String)) (td : ℚ)
          (f : ParticlePlotFeature), lats.length = lons.length →
          init lats lons labels true td = Except.ok f →
          ∃ segs, f.segments = some segs ∧ segs.length = lats.length - 1 ∧
            ∀ (i : ℕ) (la1 la2 lo1 lo2 : ℚ), lats.get? i = some la1 →
              lats.get? (i + 1) = some la2 → lons.get? i = some lo1 →
              lons.get? (i + 1) = some lo2 →
              segs.get? i = some (line_seg lo1 la1 lo2 la2)) ∧
      (∀ (lats lons : List ℚ) (labels : Option (List String)) (td : ℚ)
          (f : ParticlePlotFeature),
          init lats lons labels false td = Except.ok f → f.segments = none) := by
  refine ⟨fun x1 y1 x2 y2 => ?_, ?_, ?_⟩
  · have hdom : (if x1 ≤ x2 then (x1, x2) else (x2, x1)) = (min x1 x2, max x1 x2) := by
      split_ifs with h
      · simp [min_eq_left h, max_eq_right h]
      · have h2 : x2 ≤ x1 := le_of_not_le h
        simp [min_eq_right h2, max_eq_left h2]
    have hrng : (if y1 ≤ y2 then (y1, y2) else (y2, y1)) = (min y1 y2, max y1 y2) := by
      split_ifs with h
      · simp [min_eq_left h, max_eq_right h]
      · have h2 : y2 ≤ y1 := le_of_not_le h
        simp [min_eq_right h2, max_eq_left h2]
    have hslope : (if x1 - x2 ≠ 0 then some ((y1 - y2) / (x1 - x2)) else none) =
        (if x1 ≠ x2 then some ((y1 - y2) / (x1 - x2)) else none) := by
      simp only [sub_ne_zero]
    simp [line_seg, makeSegment_spec, hdom, hrng, hslope]
  · intro lats lons labels td f hlen hinit
    obtain ⟨-, -, -, -, -, hsegf⟩ := init_ok hinit
    simp only [if_true] at hsegf
    exact ⟨buildSegs lats lons, hsegf, buildSegs_length lats lons hlen,
      fun i la1 la2 lo1 lo2 h1 h2 h3 h4 =>
        buildSegs_get lats lons i la1 la2 lo1 lo2 h1 h2 h3 h4⟩
  · intro lats lons labels td f hinit
    obtain ⟨-, -, -, -, -, hsegf⟩ := init_ok hinit
    simpa using hsegf

/-- A concrete two-waypoint segment track used to instantiate theorems
at concrete inputs. -/
def fEx1 : ParticlePlotFeature :=
  { lats := [0, 1]
    lons := [0, 1]
    points := [(0, 0), (1, 1)]
    labels := none
    segments := some [line_seg 0 0 1 1]
    track_dist := 0 }

/-- C6 witness: the two-waypoint track gets exactly one segment. -/
theorem segment_construction_spec_witness :
    ∃ segs, fEx1.segments = some segs ∧
      segs.length = ([0, 1] : List ℚ).length - 1 := by
  obtain ⟨segs, h1, h2, -⟩ :=
    segment_construction_spec.2.1 [0, 1] [0, 1] none 0 fEx1 rfl rfl
  exact ⟨segs, h1, h2⟩

/-- The inner waypoint loop preserves the number of counters. -/
lemma near_bump_length (hav : Hav) (td : ℚ) (p : Option ℚ × Option ℚ) :
    ∀ (counts : List ℕ) (pts : List (ℚ × ℚ)),
      (near_bump hav td p counts pts).length = counts.length := by
  intro counts
  induction counts with
  | nil => intro pts; cases pts <;> rfl
  | cons c cs ih =>
    intro pts
    cases pts with
    | nil => rfl
    | cons pt ps => simp [near_bump, ih]

/-- Counter `i` after one position: bumped iff the position is within
`td` of waypoint `i`. -/
lemma near_bump_get_some (hav : Hav) (td : ℚ) (p : Option ℚ × Option ℚ)
    {counts : List ℕ} {pts : List (ℚ × ℚ)} {i : ℕ} {c : ℕ} {pt : ℚ × ℚ}
    (hc : counts.get? i = some c) (hp : pts.get? i = some pt) :
    (near_bump hav td p counts pts).get? i =
      some (if ole (hav p.1 (some pt.1) p.2 (some pt.2)) (some td) then c + 1
        else c) := by
  induction counts generalizing pts i with
  | nil => simp at hc
  | cons c0 cs ih =>
    cases pts with
    | nil => simp at hp
    | cons pt0 ps =>
      cases i with
      | zero =>
        simp only [List.get?] at hc hp
        injection hc with hc
        injection hp with hp
        subst hc; subst hp
        rfl
      | succ j =>
        simp only [List.get?] at hc hp
        show (near_bump hav td p (c0 :: cs) (pt0 :: ps)).get? (j + 1) = _
        simp only [near_bump, List.get?]
        exact ih hc hp

/-- Counter `i` is untouched when there is no waypoint `i`. -/
lemma near_bump_get_nopt (hav : Hav) (td : ℚ) (p : Option ℚ × Option ℚ) :
    ∀ {counts : List ℕ} {pts : List (ℚ × ℚ)} {i : ℕ} {c : ℕ},
      counts.get? i = some c → pts.get? i = none →
      (near_bump hav td p counts pts).get? i = some c := by
  intro counts
  induction counts with
  | nil => intro pts i c hc hp; simp at hc
  | cons c0 cs ih =>
    intro pts i c hc hp
    cases pts with
    | nil => exact hc
    | cons pt0 ps =>
      cases i with
      | zero => simp at hp
      | succ j =>
        simp only [List.get?] at hc hp
        show (near_bump hav td p (c0 :: cs) (pt0 :: ps)).get? (j + 1) = _
        simp only [near_bump, List.get?]
        exact ih hc hp

/-- Counter `i` after a batch of positions: the initial value plus the
number of positions within `td` of waypoint `i`. -/
lemma count_fold_get_some (hav : Hav) (td : ℚ) (pts : List (ℚ × ℚ))
    (pt : ℚ × ℚ) (i : ℕ) (hp : pts.get? i = some pt) :
    ∀ (ps : List (Option ℚ × Option ℚ)) (counts : List ℕ) (c : ℕ),
      counts.get? i = some c →
      (ps.foldl (fun cs p => near_bump hav td p cs pts) counts).get? i =
        some (c + ps.countP
          (fun p => ole (hav p.1 (some pt.1) p.2 (some pt.2)) (some td))) := by
  intro ps
  induction ps with
  | nil => intro counts c hc; simpa using hc
  | cons p ps ih =>
    intro counts c hc
    simp only [List.foldl_cons]
    rw [ih (near_bump hav td p counts pts) _ (near_bump_get_some hav td p hc hp)]
    congr 1
    rw [List.countP_cons]
    by_cases hb : ole (hav p.1 (some pt.1) p.2 (some pt.2)) (some td) = true
    · simp [hb]; omega
    · simp [hb]

/-- Counter `i` is never touched when there is no waypoint `i`. -/
lemma count_fold_get_nopt (hav : Hav) (td : ℚ) (pts : List (ℚ × ℚ))
    (i : ℕ) (hp : pts.get? i = none) :
    ∀ (ps : List (Option ℚ × Option ℚ)) (counts : List ℕ) (c : ℕ),
      counts.get? i = some c →
      (ps.foldl (fun cs p => near_bump hav td p cs pts) counts).get? i =
        some c := by
  intro ps
  induction ps with
  | nil => intro counts c hc; simpa using hc
  | cons p ps ih =>
    intro counts c hc
    simp only [List.foldl_cons]
    exact ih _ _ (near_bump_get_nopt hav td p hc hp)

/-- The whole batch fold preserves the number of counters. -/
lemma count_fold_length (hav : Hav) (td : ℚ) (pts : List (ℚ × ℚ)) :
    ∀ (ps : List (Option ℚ × Option ℚ)) (counts : List ℕ),
      (ps.foldl (fun cs p => near_bump hav td p cs pts) counts).length =
        counts.length := by
  intro ps
  induction ps with
  | nil => intro counts; rfl
  | cons p ps ih =>
    intro counts
    simp only [List.foldl_cons]
    rw [ih, near_bump_length]

/-- `count_near` always returns one counter per stored latitude. -/
lemma count_near_length (f : ParticlePlotFeature) (hav : Hav)
    (p_lats p_lons : List (Option ℚ)) :
    (count_near f hav p_lats p_lons).length = f.lats.length := by
  unfold count_near
  rw [count_fold_length, List.length_replicate]

/-- The `i`-th counter of `count_near` counts the positions within
`track_dist` of waypoint `i`. -/
lemma count_near_get_some (f : ParticlePlotFeature) (hav : Hav)
    (p_lats p_lons : List (Option ℚ)) (i : ℕ) (pt : ℚ × ℚ)
    (hp : f.points.get? i = some pt) (hi : i < f.lats.length) :
    (count_near f hav p_lats p_lons).get? i =
      some ((p_lats.zip p_lons).countP
        (fun p => ole (hav p.1 (some pt.1) p.2 (some pt.2))
          (some f.track_dist))) := by
  unfold count_near
  have hc : (List.replicate f.lats.length (0 : ℕ)).get? i = some 0 := by
    rw [List.get?_eq_getElem?, List.getElem?_replicate, if_pos hi]
  simpa using count_fold_get_some hav f.track_dist f.points pt i hp
    (p_lats.zip p_lons) _ 0 hc

/-- Counter `i` stays zero when there is no waypoint `i`. -/
lemma count_near_get_nopt (f : ParticlePlotFeature) (hav : Hav)
    (p_lats p_lons : List (Option ℚ)) (i : ℕ)
    (hp : f.points.get? i = none) (hi : i < f.lats.length) :
    (count_near f hav p_lats p_lons).get? i = some 0 := by
  unfold count_near
  have hc : (List.replicate f.lats.length (0 : ℕ)).get? i = some 0 := by
    rw [List.get?_eq_getElem?, List.getElem?_replicate, if_pos hi]
  exact count_fold_get_nopt hav f.track_dist f.points i hp
    (p_lats.zip p_lons) _ 0 hc

/-- C2: `count_near` returns exactly one counter per waypoint,
index-aligned, and the `i`-th counter equals the number of batch
positions whose geodesic distance to waypoint `i` is at most the
track's threshold. -/
theorem count_near_spec (lats lons : List ℚ) (labels : Option (List String))
    (segments : Bool) (td : ℚ) (f : ParticlePlotFeature) (hav : Hav)
    (p_lats p_lons : List (Option ℚ))
    (hlen : lats.length = lons.length)
    (hinit : init lats lons labels segments td = Except.ok f) :
    (count_near f hav p_lats p_lons).length = lats.length ∧
      ∀ (i : ℕ) (la lo : ℚ), lats.get? i = some la → lons.get? i = some lo →
        (count_near f hav p_lats p_lons).get? i =
          some ((p_lats.zip p_lons).countP
            (fun p => ole (hav p.1 (some la) p.2 (some lo)) (some td))) := by
  obtain ⟨hla, hlo, hpts, -, htd, -⟩ := init_ok hinit
  constructor
  · rw [count_near_length, hla]
  · intro i la lo h1 h2
    have hzip : f.points.get? i = some (la, lo) := by
      rw [hpts]
      exact (List.get?_zip_eq_some lats lons (la, lo) i).2 ⟨h1, h2⟩
    have hi : i < f.lats.length := by
      rw [hla]
      obtain ⟨hlt, -⟩ := List.get?_eq_some.1 h1
      exact hlt
    have hmain := count_near_get_some f hav p_lats p_lons i (la, lo) hzip hi
    rw [htd] at hmain
    exact hmain

/-- A concrete two-waypoint track with threshold 1 and no segments. -/
def fEx2 : ParticlePlotFeature :=
  { lats := [0, 1]
    lons := [0, 1]
    points := [(0, 0), (1, 1)]
    labels := none
    segments := none
    track_dist := 1 }

/-- C2 witness: a one-position batch at the first waypoint. -/
theorem count_near_spec_witness :
    (count_near fEx2 havExample [some 0] [some 0]).get? 0 =
      some (([some 0].zip [some 0]).countP
        (fun p => ole (havExample p.1 (some 0) p.2 (some 0)) (some 1))) :=
  (count_near_spec [0, 1] [0, 1] none false 1 fEx2 havExample [some 0] [some 0]
    rfl rfl).2 0 0 0 rfl rfl

/-- C10: every counter returned by `count_near` is at most the number
of positions in the batch, the returned sequence has length `N`
whatever the batch size, and an empty batch yields all zeros. -/
theorem count_near_bounds (lats lons : List ℚ) (labels : Option (List String))
    (segments : Bool) (td : ℚ) (f : ParticlePlotFeature) (hav : Hav)
    (p_lats p_lons : List (Option ℚ))
    (hlen : lats.length = lons.length) (hM : p_lats.length = p_lons.length)
    (hinit : init lats lons labels segments td = Except.ok f) :
    (count_near f hav p_lats p_lons).length = lats.length ∧
      (∀ (i : ℕ) (c : ℕ), (count_near f hav p_lats p_lons).get? i = some c →
        c ≤ p_lats.length) ∧
      (p_lats = [] →
        count_near f hav p_lats p_lons = List.replicate lats.length 0) := by
  obtain ⟨hla, -, hpts, -, -, -⟩ := init_ok hinit
  refine ⟨by rw [count_near_length, hla], ?_, ?_⟩
  · intro i c hc
    have hi : i < f.lats.length := by
      obtain ⟨hlt, -⟩ := List.get?_eq_some.1 hc
      rwa [count_near_length] at hlt
    cases hp : f.points.get? i with
    | some pt =>
      rw [count_near_get_some f hav p_lats p_lons i pt hp hi] at hc
      injection hc with hc
      have hle : (p_lats.zip p_lons).countP
          (fun p => ole (hav p.1 (some pt.1) p.2 (some pt.2))
            (some f.track_dist)) ≤ (p_lats.zip p_lons).length :=
        List.countP_le_length _
      rw [List.length_zip] at hle
      omega
    | none =>
      rw [count_near_get_nopt f hav p_lats p_lons i hp hi] at hc
      injection hc with hc
      omega
  · intro h0
    subst h0
    show List.replicate f.lats.length 0 = List.replicate lats.length 0
    rw [hla]

/-- C10 witness: the empty batch yields the all-zero counter list. -/
theorem count_near_bounds_witness :
    count_near fEx2 havExample [] [] = List.replicate ([0, 1] : List ℚ).length 0 :=
  (count_near_bounds [0, 1] [0, 1] none false 1 fEx2 havExample [] []
    rfl rfl rfl).2.2 rfl

/-- The KD-tree scan returns either its running best index or the
position of some later point, so it stays below any bound covering
both. -/
lemma kq_aux_lt (lat lon : Option ℚ) :
    ∀ (ps : List (ℚ × ℚ)) (i : ℕ) (bD : RF) (bI M : ℕ),
      bI < M → i + ps.length ≤ M → kq_aux lat lon ps i bD bI < M := by
  intro ps
  induction ps with
  | nil =>
    intro i bD bI M h1 h2
    simpa [kq_aux] using h1
  | cons p ps ih =>
    intro i bD bI M h1 h2
    simp only [List.length_cons] at h2
    cases hlt : RF.lt (RF.ofO (sqd lat lon p)) bD with
    | true =>
      have hunf : kq_aux lat lon (p :: ps) i bD bI =
          kq_aux lat lon ps (i + 1) (RF.ofO (sqd lat lon p)) i := by
        simp [kq_aux, hlt]
      rw [hunf]
      exact ih (i + 1) _ i M (by omega) (by omega)
    | false =>
      have hunf : kq_aux lat lon (p :: ps) i bD bI =
          kq_aux lat lon ps (i + 1) bD bI := by
        simp [kq_aux, hlt]
      rw [hunf]
      exact ih (i + 1) bD bI M h1 (by omega)

/-- For a finite query over a nonempty point list, the KD-tree query
returns an in-range index (the first point is always accepted). -/
lemma kdtree_query_lt (pts : List (ℚ × ℚ)) (lat lon : ℚ) (h : pts ≠ []) :
    kdtree_query pts (some lat) (some lon) < pts.length := by
  cases pts with
  | nil => exact absurd rfl h
  | cons p rest =>
    unfold kdtree_query
    have hsq : sqd (some lat) (some lon) p =
        some ((lat - p.1) * (lat - p.1) + (lon - p.2) * (lon - p.2)) := rfl
    have hlt : RF.lt (RF.ofO (sqd (some lat) (some lon) p)) RF.inf = true := by
      rw [hsq]; rfl
    have hstep : kq_aux (some lat) (some lon) (p :: rest) 0 RF.inf
        (p :: rest).length =
        kq_aux (some lat) (some lon) rest 1
          (RF.ofO (sqd (some lat) (some lon) p)) 0 := by
      simp [kq_aux, hlt]
    rw [hstep]
    exact kq_aux_lt (some lat) (some lon) rest 1 _ 0 (p :: rest).length
      (by simp only [List.length_cons]; omega)
      (by simp only [List.length_cons]; omega)

/-- The least-of-a-list abstraction of the running minimum: `inf` for
no candidates, otherwise the minimum of the candidates. -/
def rmin : List ℚ → RF
  | [] => RF.inf
  | d :: ds => RF.fin (List.foldl min d ds)

/-- Folding the candidate segments from a finite accumulator computes
the minimum of the accumulator and the valid projection distances. -/
lemma segFold_fin (hav : Hav) (lat lon : Option ℚ) :
    ∀ (l : List Seg) (a : ℚ),
      segFold hav lat lon (RF.fin a) l =
        RF.fin (List.foldl min a (segDs hav lat lon l)) := by
  intro l
  induction l with
  | nil => intro a; rfl
  | cons seg rest ih =>
    intro a
    by_cases hvp : valid_point (intersection_info lon lat seg).1
        (intersection_info lon lat seg).2 seg = true
    · cases hd : hav lat (intersection_info lon lat seg).2 lon
          (intersection_info lon lat seg).1 with
      | some q =>
        have hsel : (if RF.lt (RF.fin q) (RF.fin a) then RF.fin q else RF.fin a) =
            RF.fin (min a q) := by
          by_cases hlt : q < a
          · simp [hlt, min_eq_right (le_of_lt hlt)]
          · simp [hlt, min_eq_left (le_of_not_lt hlt)]
        simp only [segFold, hvp, if_true, hd, RF.ofO, hsel, segDs,
          List.filterMap_cons]
        simp only [segDs] at ih
        rw [ih (min a q)]
        simp [hvp, hd, List.foldl_cons]
      | none =>
        simp only [segFold, hvp, if_true, hd, RF.ofO, RF_lt_nan_left,
          Bool.false_eq_true, if_false, segDs, List.filterMap_cons]
        simp only [segDs] at ih
        rw [ih a]
    · simp only [segFold, hvp, Bool.false_eq_true, if_false, segDs,
        List.filterMap_cons]
      simp only [segDs] at ih
      rw [ih a]

/-- Folding the candidate segments from `inf` computes the least valid
projection distance, or stays `inf` when there is none. -/
lemma segFold_inf (hav : Hav) (lat lon : Option ℚ) :
    ∀ l : List Seg,
      segFold hav lat lon RF.inf l = rmin (segDs hav lat lon l) := by
  intro l
  induction l with
  | nil => rfl
  | cons seg rest ih =>
    by_cases hvp : valid_point (intersection_info lon lat seg).1
        (intersection_info lon lat seg).2 seg = true
    · cases hd : hav lat (intersection_info lon lat seg).2 lon
          (intersection_info lon lat seg).1 with
      | some q =>
        simp only [segFold, hvp, if_true, hd, RF.ofO, RF_lt_fin_inf, segDs,
          List.filterMap_cons]
        rw [segFold_fin hav lat lon rest q]
        simp [rmin, hvp, hd, segDs]
      | none =>
        simp only [segFold, hvp, if_true, hd, RF.ofO, RF_lt_nan_left,
          Bool.false_eq_true, if_false, segDs, List.filterMap_cons]
        simp only [segDs] at ih
        rw [ih]
    · simp only [segFold, hvp, Bool.false_eq_true, if_false, segDs,
        List.filterMap_cons]
      simp only [segDs] at ih
      rw [ih]

/-- A left-fold minimum capped by one more value equals the right-fold
minimum seeded with that value. -/
lemma min_foldl_foldr : ∀ (ds : List ℚ) (d w : ℚ),
    min (List.foldl min d ds) w = List.foldr min w (d :: ds) := by
  intro ds
  induction ds with
  | nil => intro d w; rfl
  | cons c t ih =>
    intro d w
    simp only [List.foldl_cons, List.foldr_cons]
    rw [ih (min d c) w]
    simp only [List.foldr_cons]
    rw [min_assoc]

/-- The seeded right-fold minimum never exceeds its seed. -/
lemma foldr_min_le (w : ℚ) : ∀ l : List ℚ, List.foldr min w l ≤ w := by
  intro l
  induction l with
  | nil => exact le_refl w
  | cons d ds ih =>
    simp only [List.foldr_cons]
    exact le_trans (min_le_right _ _) ih

/-- The last update of `get_closest_dist`: comparing the
nearest-waypoint distance against the segment minimum yields the
right-fold minimum over all candidates. -/
lemma final_min (w : ℚ) (l : List ℚ) :
    (if RF.lt (RF.fin w) (rmin l) then RF.fin w else rmin l) =
      RF.fin (List.foldr min w l) := by
  cases l with
  | nil => rfl
  | cons d ds =>
    simp only [rmin]
    have key := min_foldl_foldr ds d w
    by_cases h : w < List.foldl min d ds
    · rw [if_pos (by simp [h])]
      rw [← key, min_eq_right (le_of_lt h)]
    · rw [if_neg (by simp [h])]
      rw [← key, min_eq_left (le_of_not_lt h)]

/-- When the nearest index is in range and the segment list is long
enough, the `seg_check` collection succeeds and returns exactly the
adjacent candidate segments. -/
lemma seg_check_ok (segs : List Seg) (nPts idx : ℕ)
    (hidx : idx < nPts) (hlen : nPts - 1 ≤ segs.length) :
    seg_check segs nPts idx =
      some ((if idx < nPts - 1 then (segs.get? idx).toList else []) ++
        (if idx > 0 then (segs.get? (idx - 1)).toList else [])) := by
  unfold seg_check
  by_cases h1 : idx < nPts - 1
  · cases hs1 : segs.get? idx with
    | none =>
      have := List.get?_eq_none.1 hs1
      omega
    | some s1 =>
      by_cases h2 : idx > 0
      · cases hs2 : segs.get? (idx - 1) with
        | none =>
          have := List.get?_eq_none.1 hs2
          omega
        | some s2 => simp [h1, h2, hs1, hs2]
      · simp [h1, h2, hs1]
  · by_cases h2 : idx > 0
    · cases hs2 : segs.get? (idx - 1) with
      | none =>
        have := List.get?_eq_none.1 hs2
        omega
      | some s2 => simp [h1, h2, hs2]
    · simp [h1, h2]

/-- Shape of a successful `get_closest_dist` run with segments: fold
the candidate segments from `inf`, then compare against the
nearest-waypoint distance. -/
lemma get_closest_dist_shape (f : ParticlePlotFeature) (hav : Hav)
    (lat lon : Option ℚ) (segs cand : List Seg) (pnt : ℚ × ℚ)
    (hseg : f.segments = some segs)
    (hchk : seg_check segs f.points.length (kdtree_query f.points lat lon) =
      some cand)
    (hpnt : f.points.get? (kdtree_query f.points lat lon) = some pnt) :
    get_closest_dist f hav lat lon =
      some (if RF.lt (RF.ofO (hav lat (some pnt.1) lon (some pnt.2)))
          (segFold hav lat lon RF.inf cand)
        then RF.ofO (hav lat (some pnt.1) lon (some pnt.2))
        else segFold hav lat lon RF.inf cand) := by
  unfold get_closest_dist
  simp only [hseg, hchk, hpnt]

/-- Shape of a successful `get_closest_dist` run without segments: the
nearest-waypoint distance against the initial `inf`. -/
lemma get_closest_dist_shape_none (f : ParticlePlotFeature) (hav : Hav)
    (lat lon : Option ℚ) (pnt : ℚ × ℚ)
    (hseg : f.segments = none)
    (hpnt : f.points.get? (kdtree_query f.points lat lon) = some pnt) :
    get_closest_dist f hav lat lon =
      some (if RF.lt (RF.ofO (hav lat (some pnt.1) lon (some pnt.2))) RF.inf
        then RF.ofO (hav lat (some pnt.1) lon (some pnt.2))
        else RF.inf) := by
  unfold get_closest_dist
  simp only [hseg, hpnt]

/-- C1: for a track over `N ≥ 1` waypoints and a finite query with a
finite geodesic distance `w` to the KD-tree's nearest waypoint,
`get_closest_dist` returns exactly the minimum of `w` and the valid
projection distances of the (at most two) adjacent candidate segments;
consequently the result is at most `w`, and with no valid projection
candidates (in particular with segments disabled) it equals `w`. -/
theorem get_closest_dist_min (lats lons : List ℚ)
    (labels : Option (List String)) (segments : Bool) (td : ℚ)
    (f : ParticlePlotFeature) (hav : Hav) (lat lon : ℚ) (pnt : ℚ × ℚ) (w : ℚ)
    (hlen : lats.length = lons.length) (hN : 1 ≤ lats.length)
    (hinit : init lats lons labels segments td = Except.ok f)
    (hpnt : f.points.get? (kdtree_query f.points (some lat) (some lon)) =
      some pnt)
    (hw : hav (some lat) (some pnt.1) (some lon) (some pnt.2) = some w) :
    get_closest_dist f hav (some lat) (some lon) =
      some (RF.fin (List.foldr min w (validSegDists f hav lat lon))) ∧
      List.foldr min w (validSegDists f hav lat lon) ≤ w ∧
      (validSegDists f hav lat lon = [] →
        List.foldr min w (validSegDists f hav lat lon) = w) ∧
      (f.segments = none → validSegDists f hav lat lon = []) := by
  obtain ⟨hla, hlo, hpts, -, -, hsegf⟩ := init_ok hinit
  have hplen : f.points.length = lats.length := by
    rw [hpts, List.length_zip, ← hlen, min_self]
  have hne : f.points ≠ [] := by
    apply List.ne_nil_of_length_pos
    rw [hplen]
    omega
  have hidx : kdtree_query f.points (some lat) (some lon) < f.points.length :=
    kdtree_query_lt f.points lat lon hne
  cases hsegcase : f.segments with
  | none =>
    have hcand : validSegDists f hav lat lon = [] := by
      unfold validSegDists candSegs
      rw [hsegcase]
      rfl
    refine ⟨?_, foldr_min_le w _, fun h => by rw [h]; rfl, fun _ => hcand⟩
    rw [get_closest_dist_shape_none f hav (some lat) (some lon) pnt hsegcase hpnt]
    rw [hcand, hw]
    exact congrArg some (final_min w [])
  | some segs =>
    have hsegs : segs = buildSegs lats lons := by
      rw [hsegcase] at hsegf
      cases segments
      · simp at hsegf
      · simpa using hsegf
    have hslen : f.points.length - 1 ≤ segs.length := by
      rw [hsegs, buildSegs_length lats lons hlen, hplen]
    have hchk := seg_check_ok segs f.points.length
      (kdtree_query f.points (some lat) (some lon)) hidx hslen
    have hcand : validSegDists f hav lat lon =
        segDs hav (some lat) (some lon)
          ((if kdtree_query f.points (some lat) (some lon) <
              f.points.length - 1
            then (segs.get? (kdtree_query f.points (some lat) (some lon))).toList
            else []) ++
          (if kdtree_query f.points (some lat) (some lon) > 0
            then (segs.get?
              (kdtree_query f.points (some lat) (some lon) - 1)).toList
            else [])) := by
      unfold validSegDists candSegs
      rw [hsegcase]
    refine ⟨?_, foldr_min_le w _, fun h => by rw [h]; rfl, fun h => ?_⟩
    · rw [get_closest_dist_shape f hav (some lat) (some lon) segs _ pnt
        hsegcase hchk hpnt]
      rw [segFold_inf, hw, ← hcand]
      exact congrArg some (final_min w (validSegDists f hav lat lon))
    · exact absurd h (by simp)

/-- C1 witness: the two-waypoint diagonal track queried from its first
waypoint. -/
theorem get_closest_dist_min_witness :
    get_closest_dist fEx1 havExample (some 0) (some 0) =
      some (RF.fin (List.foldr min 0 (validSegDists fEx1 havExample 0 0))) :=
  (get_closest_dist_min [0, 1] [0, 1] none true 0 fEx1 havExample 0 0
    (0, 0) 0 rfl (by decide) rfl
    (by norm_num [fEx1, kdtree_query, kq_aux, sqd, osub, omul, oadd, RF.ofO,
      RF.lt])
    (by norm_num [havExample])).1

/-- C9: on a segment-enabled track over `N ≥ 1` waypoints, a finite
query never takes `get_closest_dist` out of bounds (the index guards
keep every access valid), and a single-waypoint track (whose segment
array is empty) returns the distance to its sole waypoint. -/
theorem get_closest_dist_no_oob (lats lons : List ℚ)
    (labels : Option (List String)) (td : ℚ) (f : ParticlePlotFeature)
    (hav : Hav) (lat lon : ℚ)
    (hlen : lats.length = lons.length) (hN : 1 ≤ lats.length)
    (hinit : init lats lons labels true td = Except.ok f) :
    (get_closest_dist f hav (some lat) (some lon)).isSome = true ∧
      ∀ (pt : ℚ × ℚ) (q : ℚ), f.points = [pt] →
        hav (some lat) (some pt.1) (some lon) (some pt.2) = some q →
        get_closest_dist f hav (some lat) (some lon) = some (RF.fin q) := by
  obtain ⟨hla, hlo, hpts, -, -, hsegf⟩ := init_ok hinit
  simp only [if_true] at hsegf
  have hplen : f.points.length = lats.length := by
    rw [hpts, List.length_zip, ← hlen, min_self]
  have hne : f.points ≠ [] := by
    apply List.ne_nil_of_length_pos
    rw [hplen]
    omega
  have hidx : kdtree_query f.points (some lat) (some lon) < f.points.length :=
    kdtree_query_lt f.points lat lon hne
  have hslen : f.points.length - 1 ≤ (buildSegs lats lons).length := by
    rw [buildSegs_length lats lons hlen, hplen]
  have hchk := seg_check_ok (buildSegs lats lons) f.points.length
    (kdtree_query f.points (some lat) (some lon)) hidx hslen
  have hpnt : ∃ pnt, f.points.get?
      (kdtree_query f.points (some lat) (some lon)) = some pnt := by
    cases hp : f.points.get? (kdtree_query f.points (some lat) (some lon)) with
    | none =>
      have := List.get?_eq_none.1 hp
      omega
    | some pt => exact ⟨pt, rfl⟩
  obtain ⟨pnt, hpnt⟩ := hpnt
  constructor
  · rw [get_closest_dist_shape f hav (some lat) (some lon) (buildSegs lats lons)
      _ pnt hsegf hchk hpnt]
    rfl
  · intro pt q hpt hq
    have hplen1 : f.points.length = 1 := by rw [hpt]; rfl
    have hidx0 : kdtree_query f.points (some lat) (some lon) = 0 := by omega
    have hsing : buildSegs lats lons = [] := by
      have hl1 : lats.length = 1 := by omega
      obtain ⟨a, ha⟩ := List.length_eq_one.1 hl1
      obtain ⟨b, hb⟩ := List.length_eq_one.1 (by omega : lons.length = 1)
      rw [ha, hb]
      rfl
    have hchk0 : seg_check (buildSegs lats lons) f.points.length
        (kdtree_query f.points (some lat) (some lon)) = some [] := by
      rw [hsing, hplen1, hidx0]
      rfl
    have hpnt0 : f.points.get?
        (kdtree_query f.points (some lat) (some lon)) = some pt := by
      rw [hidx0, hpt]
      rfl
    rw [get_closest_dist_shape f hav (some lat) (some lon) (buildSegs lats lons)
      [] pt hsegf hchk0 hpnt0]
    rw [hq]
    rfl

/-- A concrete one-waypoint track with segments enabled (the segment
array is empty). -/
def fEx3 : ParticlePlotFeature :=
  { lats := [5]
    lons := [6]
    points := [(5, 6)]
    labels := none
    segments := some []
    track_dist := 0 }

/-- C9 witness: the single-waypoint segment track answers a query with
the distance to its sole waypoint. -/
theorem get_closest_dist_no_oob_witness :
    get_closest_dist fEx3 havExample (some 0) (some 0) =
      some (RF.fin 61) :=
  (get_closest_dist_no_oob [5] [6] none 0 fEx3 havExample 0 0 rfl
    (by decide) rfl).2 (5, 6) 61 rfl (by norm_num [havExample])

end PyPlume
